import Mathlib

/-!
Shallow embedding of the Nano-Manana batch-orchestration core
(`src/services/colorize.ts` and `src/services/translate.ts`).

`colorize.ts` contains two concatenated copies of the module; the first
definition of each symbol (lines 1-183) is the live one and is the one
embedded here.

External collaborators from `services/core.ts` (the remote Gemini call,
file decoding, base64/MIME probing) are not part of the repository
snapshot; they are modelled from the spec as oracles: a `File` carries the
outcomes of its decoding accessors, and the remote call is an oracle
mapping the page index of the single request built for it to either a
raised fault or a (possibly empty) result list.  Completion order inside a
batch is nondeterministic in the source; it is modelled by a scheduler
oracle `sched` that permutes each batch before its tasks are folded.
-/

namespace Manana

/-- A typed content part of a request (`ContentPart` in `core.ts`):
either a text block or an inline image. -/
inductive ContentPart where
  | text (s : String)
  | image (data : String) (mimeType : String)
deriving Repr, DecidableEq

/-- Modelled from the spec: `createTextPart` of `core.ts` wraps a string as
a text content part. -/
def createTextPart (s : String) : ContentPart := ContentPart.text s

/-- Modelled from the spec: `createImagePart` of `core.ts` wraps base64
data and a media type as an image content part. -/
def createImagePart (data : String) (mimeType : String) : ContentPart :=
  ContentPart.image data mimeType

/-- One image returned by the remote transform service. -/
structure GenImage where
  imageBytes : String
  mimeType : String
deriving Repr, DecidableEq

/-- `ProcessedResult` of `core.ts`: a returned image attached to the page
index it belongs to (`{ ...results[0], index: pageIndex }`). -/
structure ProcessedResult where
  imageBytes : String
  mimeType : String
  index : Nat
deriving Repr, DecidableEq

deriving instance DecidableEq for Except

/-- Modelled from the spec: a source file handle together with the
outcomes of the `core.ts` accessors applied to it.  `fileToBase64` and
`getImageDimensions` are awaited fallible calls (decode errors propagate,
spec section 4.2); `getMimeType` is total. -/
structure File where
  base64R : Except String String
  mimeTypeV : String
  dimsR : Except String (Nat × Nat)
deriving Repr, DecidableEq, Inhabited

/-- Modelled from the spec: `fileToBase64` of `core.ts` (fallible decode
to base64). -/
def fileToBase64 (f : File) : Except String String := f.base64R

/-- Modelled from the spec: `getMimeType` of `core.ts`. -/
def getMimeType (f : File) : String := f.mimeTypeV

/-- Modelled from the spec: `getImageDimensions` of `core.ts` (fallible
dimension probe). -/
def getImageDimensions (f : File) : Except String (Nat × Nat) := f.dimsR

/-- Modelled from the spec: `formatAspectRatioForPrompt` of `core.ts`
renders the probed dimensions for the prompt text. -/
def formatAspectRatioForPrompt (width height : Nat) : String :=
  toString width ++ ":" ++ toString height

/-- `ProcessingConfig` of `core.ts` (fields used by these services). -/
structure ProcessingConfig where
  apiKey : String
  batchSize : Nat
  resolution : String
deriving Repr, DecidableEq

/-- `TranslateConfig` of `translate.ts`: processing config plus the
language pair. -/
structure TranslateConfig extends ProcessingConfig where
  fromLanguage : String
  toLanguage : String
deriving Repr, DecidableEq

/-- `getColorizationPrompt` of `colorize.ts` (first copy, lines 24-52). -/
def getColorizationPrompt (refPageCount : Nat) (aspectRatioStr : String) : String :=
  let refPages := if refPageCount > 0
    then "the " ++ toString refPageCount ++ " reference image(s) attached above"
    else "no reference images"
  "Colorize the manga page below. Refer to " ++ refPages ++
    " to maintain consistency in character eye color, skin color, hair color, and clothing color.\n\nCOLORING STYLE REQUIREMENTS:\n- Apply vibrant, rich, and diverse colors throughout the entire image.\n- Do NOT leave any area uncolored - fill every part with appropriate colors including backgrounds, objects, and small details.\n- Use a colorful and visually appealing palette that brings the manga to life.\n- Add depth and dimension with shading and highlights where appropriate.\n- Make the coloring look professional and polished like a published color manga.\n\nCONSISTENCY REQUIREMENTS:\n- Maintain consistency for the same character, but if the character is wearing new clothing, draw them with appropriate different clothing.\n- Maintain cosmetic features (eye color, hair color, skin tone) consistently for each character across all pages.\n- Maintain consistency in background colors and object colors when they reappear.\n- Color different characters with distinct colors, but the same character must be colored consistently.\n\nIMAGE REQUIREMENTS:\n- The original image size is " ++
    aspectRatioStr ++
    ". Make image which has EXACTLY SAME ratio and layout with original one.\n- Preserve speech balloons, onomatopoeia, backgrounds, grids, and all structural elements.\n- Do not modify or delete any text - keep all text exactly as is.\n- Do not change character expressions or gestures - only apply colors.\n- Color each panel\x27s scene exactly as shown - do not add different scenes, modify scenes, or remove scenes.\n\nColorize the following image:"

/-- The reference preamble built by the `for (const refIdx of refIndices)`
loop of `buildSinglePageRequest` (`colorize.ts` lines 66-72): for each
reference index whose processed image resolves, a label followed by the
image; unresolved references are skipped silently. -/
def referenceParts (refIndices : List Nat)
    (getProcessedImageBase64 : Nat → Option String) : List ContentPart :=
  match refIndices with
  | [] => []
  | refIdx :: rest =>
    match getProcessedImageBase64 refIdx with
    | some refBase64 =>
        createTextPart ("This is reference page " ++ toString (refIdx + 1) ++
            " (already colorized):") ::
          createImagePart refBase64 "image/png" ::
          referenceParts rest getProcessedImageBase64
    | none => referenceParts rest getProcessedImageBase64

/-- `buildSinglePageRequest` of `colorize.ts` (first copy, lines 57-88):
reference parts, then the target page label and image, then the
colorization prompt, failing if the file cannot be decoded or probed. -/
def buildSinglePageRequest (pageIndex : Nat) (file : File)
    (refIndices : List Nat) (getProcessedImageBase64 : Nat → Option String) :
    Except String (List ContentPart) := do
  let contents := referenceParts refIndices getProcessedImageBase64
  let base64 ← fileToBase64 file
  let mimeType := getMimeType file
  let contents := contents ++
    [createTextPart ("Colorize page " ++ toString (pageIndex + 1) ++ ":"),
     createImagePart base64 mimeType]
  let dims ← getImageDimensions file
  let aspectRatioStr := formatAspectRatioForPrompt dims.1 dims.2
  pure (contents ++ [createTextPart (getColorizationPrompt refIndices.length aspectRatioStr)])

/-- `getTranslationPrompt` of `translate.ts` (lines 27-29). -/
def getTranslationPrompt (fromLanguage toLanguage : String) : String :=
  "Translate this manga page from " ++ fromLanguage ++ " to " ++ toLanguage ++
    ". Maintain all other characters, backgrounds, speech balloon\x27s shape, grids and manga structure. Make image which has EXACTLY SAME ratio and layout with original one. You have to translate speech balloon\x27s text, onomatopoeia handwritten text, and all other texts which are not " ++
    toLanguage ++ "."

/-- The content sequence submitted by `translateSinglePage`
(`translate.ts` lines 43-46): the prompt text first, then the page
image. -/
def translateContents (prompt base64 mimeType : String) : List ContentPart :=
  [createTextPart prompt, createImagePart base64 mimeType]

/-- Observable callback events fired by the orchestration loops:
`onPageProcessing(indices)` at dispatch and `onPageComplete(result)` per
finished page. -/
inductive Event where
  | processing (indices : List Nat)
  | complete (result : ProcessedResult)
deriving Repr, DecidableEq

/-- Environment of a colorization run: the input files and config plus the
oracles standing for the external collaborators (`getProcessedImageBase64`
resolver, remote call outcome per page, per-batch completion order, a
clock for `Date.now()`). -/
structure ColorizeEnv where
  files : List File
  config : ProcessingConfig
  resolver : Nat → Option String
  api : Nat → Except String (List GenImage)
  sched : Nat → List Nat → List Nat
  now : Nat

/-- `files.length` in `processColorization`. -/
def ColorizeEnv.totalPages (env : ColorizeEnv) : Nat := env.files.length

/-- `config.batchSize` in `processColorization`. -/
def ColorizeEnv.batchSize (env : ColorizeEnv) : Nat := env.config.batchSize

/-- The scheduler oracle is a permutation of each batch it orders: any
completion order of the concurrent requests is some such oracle. -/
def SchedOK (sched : Nat → List Nat → List Nat) : Prop :=
  ∀ b l, List.Perm (sched b l) l

/-- Loop state of `processColorization`: the `completedIndices` registry
and the `currentIndex` / `batchNumber` counters. -/
structure ColorState where
  completedIndices : List Nat
  currentIndex : Nat
  batchNumber : Nat
deriving Repr, DecidableEq

/-- The initial loop state (`[]`, `0`, `1`). -/
def ColorState.init : ColorState := ⟨[], 0, 1⟩

/-- `targetBatchCount` of `processColorization` (lines 127-129): 1 for the
first batch, otherwise `Math.min(batchNumber, batchSize, completedCount)`. -/
def plannedTargetCount (batchNumber batchSize completedCount : Nat) : Nat :=
  if batchNumber = 1 then 1 else min batchNumber (min batchSize completedCount)

/-- `batchCount` of `processColorization` (line 130): the target clamped
to the remaining pages. -/
def plannedBatchCount (batchNumber batchSize completedCount totalPages currentIndex : Nat) : Nat :=
  min (plannedTargetCount batchNumber batchSize completedCount) (totalPages - currentIndex)

/-- The batch count the orchestrator computes at a given state. -/
def batchCountOf (env : ColorizeEnv) (st : ColorState) : Nat :=
  plannedBatchCount st.batchNumber env.batchSize st.completedIndices.length
    env.totalPages st.currentIndex

/-- `refIndices` of `processColorization` (lines 140-142): the last
`min(batchSize, completedCount)` entries of the registry.  `Math.max(0, len - refCount)`
is truncated subtraction on naturals. -/
def referenceWindow (batchSize : Nat) (completedIndices : List Nat) : List Nat :=
  let refCount := min batchSize completedIndices.length
  let refStartIndex := completedIndices.length - refCount
  completedIndices.drop refStartIndex

/-- The `requestId` string of a colorization request (line 156), with the
clock oracle in place of `Date.now()`. -/
def colorizeRequestId (batchNumber pageIndex now : Nat) : String :=
  "colorize_batch" ++ toString batchNumber ++ "_page" ++ toString (pageIndex + 1) ++
    "_" ++ toString now

/-- One page task of the colorization batch (lines 148-171 without the
completion bookkeeping): build the request, then submit it.  A decode
failure or a raised remote fault makes the task reject; otherwise it
resolves with the (possibly empty) result list. -/
def colorizeTask (env : ColorizeEnv) (batchNumber : Nat) (refIndices : List Nat)
    (pageIndex : Nat) : Except String (List GenImage) := do
  let _contents ← buildSinglePageRequest pageIndex (env.files.getD pageIndex default)
    refIndices env.resolver
  let _requestId := colorizeRequestId batchNumber pageIndex env.now
  env.api pageIndex

/-- What a settled batch leaves behind: the completion events fired, the
`batchCompletedIndices` buffer (in completion order), and the rejection
`Promise.all` propagates, if any. -/
structure BatchOutcome where
  events : List Event
  completed : List Nat
  err : Option String
deriving Repr, DecidableEq

/-- Folding the batch tasks in completion order (lines 148-174): a task
with a nonempty result fires `onPageComplete` at once and buffers its
index; an empty result does neither; a rejected task makes the joint
await reject — the earliest rejection wins. -/
def runColorizeBatch (env : ColorizeEnv) (batchNumber : Nat) (refIndices : List Nat) :
    List Nat → BatchOutcome
  | [] => ⟨[], [], none⟩
  | p :: rest =>
    let o := runColorizeBatch env batchNumber refIndices rest
    match colorizeTask env batchNumber refIndices p with
    | Except.error e => ⟨o.events, o.completed, some e⟩
    | Except.ok [] => o
    | Except.ok (r :: _) =>
        ⟨Event.complete ⟨r.imageBytes, r.mimeType, p⟩ :: o.events,
         p :: o.completed, o.err⟩

/-- Result of one iteration of an orchestration loop. -/
inductive StepResult (σ : Type) where
  | done
  | failed (events : List Event) (msg : String)
  | next (events : List Event) (st : σ)
deriving Repr, DecidableEq

/-- The events fired during one iteration. -/
def StepResult.events {σ : Type} : StepResult σ → List Event
  | StepResult.done => []
  | StepResult.failed evs _ => evs
  | StepResult.next evs _ => evs

/-- `batchIndices` of `processColorization` (lines 132-135):
`Array.from({length: batchCount}, (_, i) => currentIndex + i)`. -/
def batchIndicesOf (env : ColorizeEnv) (st : ColorState) : List Nat :=
  List.range' st.currentIndex (batchCountOf env st)

/-- The settled outcome of the batch dispatched at state `st`. -/
def batchOutcomeOf (env : ColorizeEnv) (st : ColorState) : BatchOutcome :=
  runColorizeBatch env st.batchNumber (referenceWindow env.batchSize st.completedIndices)
    (env.sched st.batchNumber (batchIndicesOf env st))

/-- One iteration of the `while (currentIndex < totalPages)` loop of
`processColorization` (lines 122-182): plan the batch, fire
`onPageProcessing`, settle the tasks, then either reject (an uncaught
task rejection reaches the outer promise) or sort the completed indices
ascending, append them to the registry and advance the counters. -/
def colorizeStep (env : ColorizeEnv) (st : ColorState) : StepResult ColorState :=
  if st.currentIndex < env.totalPages then
    let o := batchOutcomeOf env st
    match o.err with
    | some e => StepResult.failed (Event.processing (batchIndicesOf env st) :: o.events) e
    | none =>
        StepResult.next (Event.processing (batchIndicesOf env st) :: o.events)
          ⟨st.completedIndices ++ List.insertionSort (· ≤ ·) o.completed,
           st.currentIndex + batchCountOf env st, st.batchNumber + 1⟩
  else StepResult.done

/-- Outcome of a fuel-bounded run: the loop reached `Done`, the outer
promise rejected, or the fuel ran out with the loop still going. -/
inductive RunResult (σ : Type) where
  | done (trace : List Event)
  | failed (trace : List Event) (msg : String)
  | outOfFuel (trace : List Event) (st : σ)
deriving Repr, DecidableEq

/-- The events fired over the whole (partial) run. -/
def RunResult.trace {σ : Type} : RunResult σ → List Event
  | RunResult.done tr => tr
  | RunResult.failed tr _ => tr
  | RunResult.outOfFuel tr _ => tr

/-- `true` iff the run reached `Done`. -/
def RunResult.isDone {σ : Type} : RunResult σ → Bool
  | RunResult.done _ => true
  | _ => false

/-- `true` iff the outer promise rejected. -/
def RunResult.isFailed {σ : Type} : RunResult σ → Bool
  | RunResult.failed _ _ => true
  | _ => false

/-- Prepend the events of an iteration to the trace of the rest of the
run. -/
def RunResult.withEvents {σ : Type} (evs : List Event) : RunResult σ → RunResult σ
  | RunResult.done tr => RunResult.done (evs ++ tr)
  | RunResult.failed tr e => RunResult.failed (evs ++ tr) e
  | RunResult.outOfFuel tr s => RunResult.outOfFuel (evs ++ tr) s

/-- Fuel-bounded iteration of a loop body. -/
def runLoop {σ : Type} (step : σ → StepResult σ) : Nat → σ → RunResult σ
  | 0, st => RunResult.outOfFuel [] st
  | fuel + 1, st =>
    match step st with
    | StepResult.done => RunResult.done []
    | StepResult.failed evs e => RunResult.failed evs e
    | StepResult.next evs st' => RunResult.withEvents evs (runLoop step fuel st')

/-- `processColorization` (lines 106-183) as a fuel-bounded run from a
given state. -/
def colorizeRun (env : ColorizeEnv) (fuel : Nat) (st : ColorState) : RunResult ColorState :=
  runLoop (colorizeStep env) fuel st

/-- The loop states `processColorization` actually reaches. -/
inductive Reaches (env : ColorizeEnv) : ColorState → Prop where
  | init : Reaches env ColorState.init
  | step {st evs st'} : Reaches env st → colorizeStep env st = StepResult.next evs st' →
      Reaches env st'

/-- The `requestId` string of a translation request (line 48), with the
clock oracle in place of `Date.now()`. -/
def translateRequestId (pageIndex now : Nat) : String :=
  "translate_page_" ++ toString pageIndex ++ "_" ++ toString now

/-- `translateSinglePage` of `translate.ts` (lines 34-64): decode the
file, build the two-part contents (prompt first, then the image), submit,
and throw `No image result for page N` when the call returns no image;
otherwise resolve with the result attached to the page index. -/
def translateSinglePage (file : File) (config : TranslateConfig) (pageIndex : Nat)
    (api : Nat → Except String (List GenImage)) (now : Nat) :
    Except String ProcessedResult := do
  let base64 ← fileToBase64 file
  let mimeType := getMimeType file
  let prompt := getTranslationPrompt config.fromLanguage config.toLanguage
  let _contents := translateContents prompt base64 mimeType
  let _requestId := translateRequestId pageIndex now
  let results ← api pageIndex
  match results with
  | [] => Except.error ("No image result for page " ++ toString (pageIndex + 1))
  | r :: _ => Except.ok ⟨r.imageBytes, r.mimeType, pageIndex⟩

/-- Environment of a translation run. -/
structure TranslateEnv where
  files : List File
  config : TranslateConfig
  api : Nat → Except String (List GenImage)
  sched : Nat → List Nat → List Nat
  now : Nat

/-- `files.length` in `processTranslation`. -/
def TranslateEnv.totalPages (env : TranslateEnv) : Nat := env.files.length

/-- `config.batchSize` in `processTranslation`. -/
def TranslateEnv.batchSize (env : TranslateEnv) : Nat := env.config.batchSize

/-- Folding the translation batch tasks in completion order (lines
93-99): a resolved task fires `onPageComplete` at once; a rejection — in
particular the empty-result throw — is not caught and makes the joint
await reject, the earliest rejection winning. -/
def runTranslateBatch (env : TranslateEnv) : List Nat → List Event × Option String
  | [] => ([], none)
  | p :: rest =>
    let o := runTranslateBatch env rest
    match translateSinglePage (env.files.getD p default) env.config p env.api env.now with
    | Except.error e => (o.1, some e)
    | Except.ok result => (Event.complete result :: o.1, o.2)

/-- `batchIndices` of `processTranslation` (lines 82-86): the contiguous
block from `batchStart` to `Math.min(batchStart + batchSize, totalPages)`. -/
def tBatchIndices (env : TranslateEnv) (batchStart : Nat) : List Nat :=
  List.range' batchStart (min (batchStart + env.batchSize) env.totalPages - batchStart)

/-- One iteration of the `for (batchStart ...; batchStart += batchSize)`
loop of `processTranslation` (lines 81-108), at cursor `batchStart`: fire
`onPageProcessing` for the contiguous batch, settle its tasks, and either
rethrow the batch error (the `catch` logs and rethrows) or advance the
cursor by `batchSize`. -/
def translateStep (env : TranslateEnv) (batchStart : Nat) : StepResult Nat :=
  if batchStart < env.totalPages then
    let o := runTranslateBatch env (env.sched batchStart (tBatchIndices env batchStart))
    match o.2 with
    | some e => StepResult.failed (Event.processing (tBatchIndices env batchStart) :: o.1) e
    | none => StepResult.next (Event.processing (tBatchIndices env batchStart) :: o.1)
        (batchStart + env.batchSize)
  else StepResult.done

/-- `processTranslation` (lines 70-109) as a fuel-bounded run from a given
cursor. -/
def translateRun (env : TranslateEnv) (fuel : Nat) (batchStart : Nat) : RunResult Nat :=
  runLoop (translateStep env) fuel batchStart

/-- The `pageIndices` arguments of the `onPageProcessing` notifications in
a trace, in order. -/
def processingLists : List Event → List (List Nat)
  | [] => []
  | Event.processing l :: rest => l :: processingLists rest
  | Event.complete _ :: rest => processingLists rest

/-- All page indices dispatched over a trace, in dispatch order. -/
def processingJoin (tr : List Event) : List Nat := (processingLists tr).flatten

theorem processingLists_append (a b : List Event) :
    processingLists (a ++ b) = processingLists a ++ processingLists b := by
  induction a with
  | nil => rfl
  | cons e rest ih => cases e <;> simp [processingLists, ih]

theorem runColorizeBatch_events (env : ColorizeEnv) (bn : Nat) (refs : List Nat)
    (order : List Nat) :
    processingLists (runColorizeBatch env bn refs order).events = [] := by
  induction order with
  | nil => rfl
  | cons p rest ih =>
    unfold runColorizeBatch
    cases colorizeTask env bn refs p with
    | error e => exact ih
    | ok rs => cases rs with
      | nil => exact ih
      | cons r rs => simpa [processingLists] using ih

theorem runTranslateBatch_events (env : TranslateEnv) (order : List Nat) :
    processingLists (runTranslateBatch env order).1 = [] := by
  induction order with
  | nil => rfl
  | cons p rest ih =>
    unfold runTranslateBatch
    cases translateSinglePage (env.files.getD p default) env.config p env.api env.now with
    | error e => exact ih
    | ok r => simpa [processingLists] using ih

theorem colorizeStep_done_iff {env : ColorizeEnv} {st : ColorState} :
    colorizeStep env st = StepResult.done ↔ env.totalPages ≤ st.currentIndex := by
  constructor
  · intro h
    by_contra hc
    push_neg at hc
    unfold colorizeStep at h
    simp only [if_pos hc] at h
    cases he : (batchOutcomeOf env st).err <;> rw [he] at h <;> cases h
  · intro h
    unfold colorizeStep
    rw [if_neg (by omega)]

theorem colorizeStep_next_inv {env : ColorizeEnv} {st : ColorState} {evs : List Event}
    {st' : ColorState} (h : colorizeStep env st = StepResult.next evs st') :
    st.currentIndex < env.totalPages ∧ (batchOutcomeOf env st).err = none ∧
    evs = Event.processing (batchIndicesOf env st) :: (batchOutcomeOf env st).events ∧
    st' = ⟨st.completedIndices ++ List.insertionSort (· ≤ ·) (batchOutcomeOf env st).completed,
      st.currentIndex + batchCountOf env st, st.batchNumber + 1⟩ := by
  unfold colorizeStep at h
  by_cases hc : st.currentIndex < env.totalPages
  · simp only [if_pos hc] at h
    cases he : (batchOutcomeOf env st).err with
    | some e => rw [he] at h; cases h
    | none =>
      rw [he] at h
      injection h with h1 h2
      exact ⟨hc, rfl, h1.symm, h2.symm⟩
  · simp only [if_neg hc] at h; cases h

theorem colorizeStep_failed_inv {env : ColorizeEnv} {st : ColorState} {evs : List Event}
    {e : String} (h : colorizeStep env st = StepResult.failed evs e) :
    st.currentIndex < env.totalPages ∧ (batchOutcomeOf env st).err = some e ∧
    evs = Event.processing (batchIndicesOf env st) :: (batchOutcomeOf env st).events := by
  unfold colorizeStep at h
  by_cases hc : st.currentIndex < env.totalPages
  · simp only [if_pos hc] at h
    cases he : (batchOutcomeOf env st).err with
    | some e' =>
      rw [he] at h
      injection h with h1 h2
      exact ⟨hc, by rw [h2], h1.symm⟩
    | none => rw [he] at h; cases h
  · simp only [if_neg hc] at h; cases h

theorem translateStep_done_iff {env : TranslateEnv} {s : Nat} :
    translateStep env s = StepResult.done ↔ env.totalPages ≤ s := by
  constructor
  · intro h
    by_contra hc
    push_neg at hc
    unfold translateStep at h
    simp only [if_pos hc] at h
    cases he : (runTranslateBatch env (env.sched s (tBatchIndices env s))).2 <;>
      rw [he] at h <;> cases h
  · intro h
    unfold translateStep
    rw [if_neg (by omega)]

theorem translateStep_next_inv {env : TranslateEnv} {s : Nat} {evs : List Event}
    {s' : Nat} (h : translateStep env s = StepResult.next evs s') :
    s < env.totalPages ∧ (runTranslateBatch env (env.sched s (tBatchIndices env s))).2 = none ∧
    evs = Event.processing (tBatchIndices env s) ::
      (runTranslateBatch env (env.sched s (tBatchIndices env s))).1 ∧
    s' = s + env.batchSize := by
  unfold translateStep at h
  by_cases hc : s < env.totalPages
  · simp only [if_pos hc] at h
    cases he : (runTranslateBatch env (env.sched s (tBatchIndices env s))).2 with
    | some e => rw [he] at h; cases h
    | none =>
      rw [he] at h
      injection h with h1 h2
      exact ⟨hc, rfl, h1.symm, h2.symm⟩
  · simp only [if_neg hc] at h; cases h

theorem translateStep_failed_inv {env : TranslateEnv} {s : Nat} {evs : List Event}
    {e : String} (h : translateStep env s = StepResult.failed evs e) :
    s < env.totalPages ∧ (runTranslateBatch env (env.sched s (tBatchIndices env s))).2 = some e ∧
    evs = Event.processing (tBatchIndices env s) ::
      (runTranslateBatch env (env.sched s (tBatchIndices env s))).1 := by
  unfold translateStep at h
  by_cases hc : s < env.totalPages
  · simp only [if_pos hc] at h
    cases he : (runTranslateBatch env (env.sched s (tBatchIndices env s))).2 with
    | some e' =>
      rw [he] at h
      injection h with h1 h2
      exact ⟨hc, by rw [h2], h1.symm⟩
    | none => rw [he] at h; cases h
  · simp only [if_neg hc] at h; cases h

theorem withEvents_isDone {σ : Type} (evs : List Event) (r : RunResult σ) :
    (RunResult.withEvents evs r).isDone = r.isDone := by
  cases r <;> rfl

theorem withEvents_isFailed {σ : Type} (evs : List Event) (r : RunResult σ) :
    (RunResult.withEvents evs r).isFailed = r.isFailed := by
  cases r <;> rfl

theorem withEvents_trace {σ : Type} (evs : List Event) (r : RunResult σ) :
    (RunResult.withEvents evs r).trace = evs ++ r.trace := by
  cases r <;> rfl

/-- A file all of whose decode accessors succeed. -/
def okFile : File := ⟨Except.ok "B64", "image/png", Except.ok (2, 3)⟩

/-- A successful one-image remote response. -/
def okImage : GenImage := ⟨"IMG", "image/png"⟩

/-- The completion order in which the requests settle in dispatch order. -/
def idSched : Nat → List Nat → List Nat := fun _ l => l

theorem idSched_ok : SchedOK idSched := fun _ l => List.Perm.refl l

/-- A colorization environment over `n` well-formed files. -/
def mkColorEnv (n batchSize : Nat) (api : Nat → Except String (List GenImage)) : ColorizeEnv :=
  ⟨List.replicate n okFile, ⟨"key", batchSize, "1K"⟩, fun _ => some "REF", api, idSched, 0⟩

/-- A translation environment over `n` well-formed files. -/
def mkTransEnv (n batchSize : Nat) (api : Nat → Except String (List GenImage)) : TranslateEnv :=
  ⟨List.replicate n okFile, ⟨⟨"key", batchSize, "1K"⟩, "Japanese", "English"⟩, api, idSched, 0⟩

/-- C3 counterexample: the claim says that in either mode the instruction
prompt is the final content part of the submitted sequence.  In flat
(translation) mode it is not: for a concrete translation request the
final part is the page image and the first part is the instruction
prompt (`translate.ts` lines 43-46 list the prompt before the image). -/
theorem C3_counterexample :
    (translateContents (getTranslationPrompt "Japanese" "English") "B64" "image/png").getLast? =
      some (createImagePart "B64" "image/png") ∧
    (translateContents (getTranslationPrompt "Japanese" "English") "B64" "image/png").getLast? ≠
      some (createTextPart (getTranslationPrompt "Japanese" "English")) ∧
    (translateContents (getTranslationPrompt "Japanese" "English") "B64" "image/png").head? =
      some (createTextPart (getTranslationPrompt "Japanese" "English")) := by
  refine ⟨rfl, ?_, rfl⟩
  intro h
  simp only [translateContents, createImagePart, createTextPart, List.getLast?] at h
  cases h

/-- C3 amended: in chained (colorization) mode every built page request is
reference parts first, then the target label and image, with the
instruction prompt as the final content part; in flat (translation) mode
the submitted sequence is instead the instruction prompt first followed by
the page image as the final part. -/
theorem C3_amended :
    (∀ (pageIndex : Nat) (file : File) (refIndices : List Nat)
      (resolver : Nat → Option String) (b64 : String) (w h : Nat),
      file.base64R = Except.ok b64 → file.dimsR = Except.ok (w, h) →
      buildSinglePageRequest pageIndex file refIndices resolver =
        Except.ok ((referenceParts refIndices resolver ++
          [createTextPart ("Colorize page " ++ toString (pageIndex + 1) ++ ":"),
           createImagePart b64 (getMimeType file)]) ++
          [createTextPart (getColorizationPrompt refIndices.length
            (formatAspectRatioForPrompt w h))])) ∧
    (∀ (prompt b64 mimeType : String),
      translateContents prompt b64 mimeType =
        createTextPart prompt :: [createImagePart b64 mimeType]) := by
  constructor
  · intro pageIndex file refIndices resolver b64 w h hb hd
    unfold buildSinglePageRequest fileToBase64 getImageDimensions
    rw [hb, hd]
    rfl
  · intro prompt b64 mimeType
    rfl

/-- Witness for the amended C3 at a concrete page request. -/
theorem C3_amended_witness :
    buildSinglePageRequest 0 okFile [] (fun _ => none) =
      Except.ok ((referenceParts [] (fun _ => none) ++
        [createTextPart ("Colorize page " ++ toString (0 + 1) ++ ":"),
         createImagePart "B64" (getMimeType okFile)]) ++
        [createTextPart (getColorizationPrompt (List.length ([] : List Nat))
          (formatAspectRatioForPrompt 2 3))]) :=
  C3_amended.1 0 okFile [] (fun _ => none) "B64" 2 3 rfl rfl

/-- C5: at every iteration of the chained orchestrator loop the planned
batch count is 1 on the first batch, `min(batchNumber, batchSize, completedCount)`
afterwards; it is then clamped to the remaining pages, and the dispatched
page indices are the contiguous range of that length starting at the
cursor. -/
theorem C5_planner :
    (∀ batchSize completedCount : Nat, plannedTargetCount 1 batchSize completedCount = 1) ∧
    (∀ batchNumber batchSize completedCount : Nat, 2 ≤ batchNumber →
      plannedTargetCount batchNumber batchSize completedCount =
        min batchNumber (min batchSize completedCount)) ∧
    (∀ batchNumber batchSize completedCount totalPages currentIndex : Nat,
      plannedBatchCount batchNumber batchSize completedCount totalPages currentIndex =
        min (plannedTargetCount batchNumber batchSize completedCount)
          (totalPages - currentIndex)) ∧
    (∀ (env : ColorizeEnv) (st : ColorState), st.currentIndex < env.totalPages →
      ∃ rest, (colorizeStep env st).events =
        Event.processing (List.range' st.currentIndex (batchCountOf env st)) :: rest) := by
  refine ⟨fun _ _ => rfl, ?_, fun _ _ _ _ _ => rfl, ?_⟩
  · intro batchNumber batchSize completedCount h
    unfold plannedTargetCount
    rw [if_neg (by omega)]
  · intro env st h
    unfold colorizeStep
    simp only [if_pos h]
    cases he : (batchOutcomeOf env st).err with
    | some e => exact ⟨(batchOutcomeOf env st).events, rfl⟩
    | none => exact ⟨(batchOutcomeOf env st).events, rfl⟩

/-- Witness for C5 at batch ordinal 3 and at a concrete first iteration. -/
theorem C5_planner_witness :
    plannedTargetCount 3 4 2 = min 3 (min 4 2) ∧
    (∃ rest, (colorizeStep (mkColorEnv 12 4 (fun _ => Except.ok [okImage]))
        ColorState.init).events =
      Event.processing (List.range' 0 (batchCountOf
        (mkColorEnv 12 4 (fun _ => Except.ok [okImage])) ColorState.init)) :: rest) :=
  ⟨C5_planner.2.1 3 4 2 (by omega),
   C5_planner.2.2.2 (mkColorEnv 12 4 (fun _ => Except.ok [okImage])) ColorState.init
     (by decide)⟩

/-- C9: on an empty input list both runs resolve at once: no
`onPageProcessing` or `onPageComplete` notification fires (the trace is
empty) and, the result being the same for every remote-call oracle, the
remote API is never consulted. -/
theorem C9_empty_input :
    (∀ (env : ColorizeEnv) (fuel : Nat), env.files = [] → 1 ≤ fuel →
      colorizeRun env fuel ColorState.init = RunResult.done []) ∧
    (∀ (env : TranslateEnv) (fuel : Nat), env.files = [] → 1 ≤ fuel →
      translateRun env fuel 0 = RunResult.done []) := by
  constructor
  · intro env fuel hf hfuel
    match fuel, hfuel with
    | fuel + 1, _ =>
      show runLoop (colorizeStep env) (fuel + 1) ColorState.init = RunResult.done []
      unfold runLoop
      rw [show colorizeStep env ColorState.init = StepResult.done from
        colorizeStep_done_iff.mpr (by simp [ColorizeEnv.totalPages, hf, ColorState.init])]
  · intro env fuel hf hfuel
    match fuel, hfuel with
    | fuel + 1, _ =>
      show runLoop (translateStep env) (fuel + 1) 0 = RunResult.done []
      unfold runLoop
      rw [show translateStep env 0 = StepResult.done from
        translateStep_done_iff.mpr (by simp [TranslateEnv.totalPages, hf])]

/-- Witness for C9 on concrete empty-input environments. -/
theorem C9_empty_input_witness :
    colorizeRun (mkColorEnv 0 4 (fun _ => Except.ok [okImage])) 3 ColorState.init =
      RunResult.done [] ∧
    translateRun (mkTransEnv 0 4 (fun _ => Except.ok [okImage])) 3 0 =
      RunResult.done [] :=
  ⟨C9_empty_input.1 (mkColorEnv 0 4 (fun _ => Except.ok [okImage])) 3 rfl (by omega),
   C9_empty_input.2 (mkTransEnv 0 4 (fun _ => Except.ok [okImage])) 3 rfl (by omega)⟩

/-- A remote oracle that returns no image for page 0 and one image for
every later page. -/
def emptyFirstApi : Nat → Except String (List GenImage) :=
  fun i => if i = 0 then Except.ok [] else Except.ok [okImage]

/-- Two well-formed pages, batch width 1, empty result on page 0. -/
def stallEnv : ColorizeEnv := mkColorEnv 2 1 emptyFirstApi

/-- `true` iff the bounded run neither reached `Done` nor rejected, and
its registry is empty. -/
def stalledEmpty : RunResult ColorState → Bool
  | RunResult.outOfFuel _ st => st.completedIndices.isEmpty
  | _ => false

theorem withEvents_stalledEmpty (evs : List Event) (r : RunResult ColorState) :
    stalledEmpty (RunResult.withEvents evs r) = stalledEmpty r := by
  cases r <;> rfl

theorem stallEnv_spin : ∀ fuel n,
    stalledEmpty (colorizeRun stallEnv fuel ⟨[], 1, n + 2⟩) = true := by
  intro fuel
  induction fuel with
  | zero => intro n; rfl
  | succ fuel ih =>
    intro n
    show stalledEmpty (runLoop (colorizeStep stallEnv) (fuel + 1) ⟨[], 1, n + 2⟩) = true
    unfold runLoop
    rw [show colorizeStep stallEnv ⟨[], 1, n + 2⟩ =
        StepResult.next [Event.processing []] ⟨[], 1, (n + 1) + 2⟩ from rfl]
    rw [withEvents_stalledEmpty]
    exact ih (n + 1)

/-- C2 at the failing input: with two pages, batch width 1 and an empty
result on page 0, page 0 indeed never enters the registry, but the run
does not reach `Done` either: for every fuel bound the orchestration loop
is still spinning (each later batch has `batchCount = 0` because
`completedCount = 0`), with an empty registry and no rejection — the
outer promise never resolves. -/
theorem C2_stall :
    stallEnv.api 0 = Except.ok [] ∧
    ∀ fuel, stalledEmpty (colorizeRun stallEnv fuel ColorState.init) = true := by
  refine ⟨rfl, ?_⟩
  intro fuel
  match fuel with
  | 0 => rfl
  | fuel + 1 =>
    show stalledEmpty (runLoop (colorizeStep stallEnv) (fuel + 1) ColorState.init) = true
    unfold runLoop
    rw [show colorizeStep stallEnv ColorState.init =
        StepResult.next [Event.processing [0]] ⟨[], 1, 0 + 2⟩ from rfl]
    rw [withEvents_stalledEmpty]
    exact stallEnv_spin fuel 0

/-- A remote oracle that raises a fault on every call. -/
def faultApi : Nat → Except String (List GenImage) :=
  fun _ => Except.error "remote fault"

/-- One well-formed page whose remote call raises. -/
def faultEnv : ColorizeEnv := mkColorEnv 1 2 faultApi

/-- C1 counterexample: the claim says the chained run's outer promise
never rejects on a per-page error.  It does: with one page whose remote
call raises a fault, `processColorization` has no catch around the batch
await, so the run rejects with that fault after dispatching only the
first batch. -/
theorem C1_counterexample :
    faultEnv.api 0 = Except.error "remote fault" ∧
    colorizeRun faultEnv 3 ColorState.init =
      RunResult.failed [Event.processing [0]] "remote fault" :=
  ⟨rfl, rfl⟩

theorem colorizeTask_ok {env : ColorizeEnv} {bn : Nat} {refs : List Nat} {p : Nat}
    {v : List GenImage} (h : colorizeTask env bn refs p = Except.ok v) :
    env.api p = Except.ok v := by
  unfold colorizeTask at h
  cases hb : buildSinglePageRequest p (env.files.getD p default) refs env.resolver with
  | error e => rw [hb] at h; cases h
  | ok parts => rw [hb] at h; exact h

theorem colorizeTask_ok_of {env : ColorizeEnv} {bn : Nat} {refs : List Nat} {p : Nat}
    (hb : ∃ s, (env.files.getD p default).base64R = Except.ok s)
    (hd : ∃ d, (env.files.getD p default).dimsR = Except.ok d)
    (ha : ∃ l, env.api p = Except.ok l) :
    ∃ v, colorizeTask env bn refs p = Except.ok v := by
  obtain ⟨s, hb⟩ := hb
  obtain ⟨d, hd⟩ := hd
  obtain ⟨l, ha⟩ := ha
  refine ⟨l, ?_⟩
  unfold colorizeTask buildSinglePageRequest fileToBase64 getImageDimensions
  rw [hb, hd, ha]
  rfl

theorem runColorizeBatch_completed_sublist (env : ColorizeEnv) (bn : Nat)
    (refs : List Nat) (order : List Nat) :
    List.Sublist (runColorizeBatch env bn refs order).completed order := by
  induction order with
  | nil => exact List.Sublist.refl []
  | cons p rest ih =>
    unfold runColorizeBatch
    cases colorizeTask env bn refs p with
    | error e => exact ih.cons p
    | ok rs => cases rs with
      | nil => exact ih.cons p
      | cons r rs => exact ih.cons₂ p

theorem runColorizeBatch_completed_api {env : ColorizeEnv} {bn : Nat}
    {refs : List Nat} {order : List Nat} {i : Nat}
    (h : i ∈ (runColorizeBatch env bn refs order).completed) :
    ∃ r rs, env.api i = Except.ok (r :: rs) := by
  induction order with
  | nil => cases h
  | cons p rest ih =>
    unfold runColorizeBatch at h
    cases ht : colorizeTask env bn refs p with
    | error e => rw [ht] at h; exact ih h
    | ok rs =>
      cases rs with
      | nil => rw [ht] at h; exact ih h
      | cons r rs =>
        rw [ht] at h
        rcases List.mem_cons.mp h with hi | hi
        · exact ⟨r, rs, hi ▸ colorizeTask_ok ht⟩
        · exact ih hi

theorem runColorizeBatch_err_none {env : ColorizeEnv} {bn : Nat}
    {refs : List Nat} {order : List Nat}
    (h : ∀ p ∈ order, ∃ v, colorizeTask env bn refs p = Except.ok v) :
    (runColorizeBatch env bn refs order).err = none := by
  induction order with
  | nil => rfl
  | cons p rest ih =>
    unfold runColorizeBatch
    obtain ⟨v, hv⟩ := h p (List.mem_cons_self p rest)
    rw [hv]
    cases v with
    | nil => exact ih fun q hq => h q (List.mem_cons_of_mem p hq)
    | cons r rs =>
      show (runColorizeBatch env bn refs rest).err = none
      exact ih fun q hq => h q (List.mem_cons_of_mem p hq)

/-- The loop invariant of `processColorization`: the cursor never passes
the page count, the registry is strictly increasing (hence duplicate
free), every registered index lies before the cursor, and every
registered index has a nonempty remote result. -/
structure ColorInv (env : ColorizeEnv) (st : ColorState) : Prop where
  cursor_le : st.currentIndex ≤ env.totalPages
  sorted : st.completedIndices.Sorted (· < ·)
  lt_cursor : ∀ i ∈ st.completedIndices, i < st.currentIndex
  api_ok : ∀ i ∈ st.completedIndices, ∃ r rs, env.api i = Except.ok (r :: rs)

theorem batchCountOf_le (env : ColorizeEnv) (st : ColorState) :
    batchCountOf env st ≤ env.totalPages - st.currentIndex :=
  Nat.min_le_right _ _

theorem reaches_inv {env : ColorizeEnv} {st : ColorState}
    (hs : SchedOK env.sched) (h : Reaches env st) : ColorInv env st := by
  induction h with
  | init =>
    exact ⟨Nat.zero_le _, List.sorted_nil, fun i hi => absurd hi (List.not_mem_nil i),
      fun i hi => absurd hi (List.not_mem_nil i)⟩
  | @step st evs st' _ hstep ih =>
    obtain ⟨hc, _, _, hst'⟩ := colorizeStep_next_inv hstep
    subst hst'
    have hperm : List.Perm (env.sched st.batchNumber (batchIndicesOf env st))
        (batchIndicesOf env st) := hs _ _
    have hsub := runColorizeBatch_completed_sublist env st.batchNumber
      (referenceWindow env.batchSize st.completedIndices)
      (env.sched st.batchNumber (batchIndicesOf env st))
    have hmem : ∀ i ∈ (batchOutcomeOf env st).completed,
        st.currentIndex ≤ i ∧ i < st.currentIndex + batchCountOf env st := by
      intro i hi
      have : i ∈ batchIndicesOf env st := hperm.subset (hsub.subset hi)
      exact List.mem_range'_1.mp this
    have hnodup : (batchOutcomeOf env st).completed.Nodup :=
      List.Nodup.sublist hsub (hperm.nodup_iff.mpr (List.nodup_range' _ _))
    have hsortperm : List.Perm
        (List.insertionSort (· ≤ ·) (batchOutcomeOf env st).completed)
        (batchOutcomeOf env st).completed := List.perm_insertionSort _ _
    have hsorted : (List.insertionSort (· ≤ ·) (batchOutcomeOf env st).completed).Sorted
        (· < ·) := by
      refine List.Sorted.lt_of_le (List.sorted_insertionSort _ _) ?_
      exact hsortperm.nodup_iff.mpr hnodup
    have hmem' : ∀ i ∈ List.insertionSort (· ≤ ·) (batchOutcomeOf env st).completed,
        st.currentIndex ≤ i ∧ i < st.currentIndex + batchCountOf env st :=
      fun i hi => hmem i (hsortperm.subset hi)
    have hbc := batchCountOf_le env st
    have hcle := ih.cursor_le
    refine ⟨?_, ?_, ?_, ?_⟩
    · show st.currentIndex + batchCountOf env st ≤ env.totalPages
      omega
    · show (st.completedIndices ++
        List.insertionSort (· ≤ ·) (batchOutcomeOf env st).completed).Pairwise (· < ·)
      rw [List.pairwise_append]
      exact ⟨ih.sorted, hsorted, fun x hx y hy =>
        Nat.lt_of_lt_of_le (ih.lt_cursor x hx) (hmem' y hy).1⟩
    · show ∀ i ∈ st.completedIndices ++
        List.insertionSort (· ≤ ·) (batchOutcomeOf env st).completed,
        i < st.currentIndex + batchCountOf env st
      intro i hi
      rcases List.mem_append.mp hi with hi | hi
      · have := ih.lt_cursor i hi
        omega
      · exact (hmem' i hi).2
    · show ∀ i ∈ st.completedIndices ++
        List.insertionSort (· ≤ ·) (batchOutcomeOf env st).completed,
        ∃ r rs, env.api i = Except.ok (r :: rs)
      intro i hi
      rcases List.mem_append.mp hi with hi | hi
      · exact ih.api_ok i hi
      · exact runColorizeBatch_completed_api (hsortperm.subset hi)

/-- A remote oracle that returns one image for every page. -/
def okApi : Nat → Except String (List GenImage) := fun _ => Except.ok [okImage]

/-- Twelve well-formed pages, batch width 4, all calls succeed. -/
def demoEnv : ColorizeEnv := mkColorEnv 12 4 okApi

theorem demo_reach1 : Reaches demoEnv ⟨[0], 1, 2⟩ :=
  Reaches.step Reaches.init (by rfl)

/-- C6: at every reachable point of the chained orchestrator, under any
completion order, the reference window has length exactly
`min(batchSize, completedCount)`, draws only from the registry, and
consists of the numerically largest such entries: every registry entry
outside the window is smaller than every entry inside it. -/
theorem C6_reference_window :
    ∀ (env : ColorizeEnv) (st : ColorState), SchedOK env.sched → Reaches env st →
    (referenceWindow env.batchSize st.completedIndices).length =
      min env.batchSize st.completedIndices.length ∧
    (∀ x ∈ referenceWindow env.batchSize st.completedIndices, x ∈ st.completedIndices) ∧
    (∀ y ∈ st.completedIndices, y ∉ referenceWindow env.batchSize st.completedIndices →
      ∀ x ∈ referenceWindow env.batchSize st.completedIndices, y < x) := by
  intro env st hs hr
  have inv := reaches_inv hs hr
  have hk : min env.batchSize st.completedIndices.length ≤ st.completedIndices.length :=
    Nat.min_le_right _ _
  refine ⟨?_, ?_, ?_⟩
  · show (st.completedIndices.drop
      (st.completedIndices.length - min env.batchSize st.completedIndices.length)).length =
      min env.batchSize st.completedIndices.length
    rw [List.length_drop]
    omega
  · intro x hx
    exact List.drop_subset _ _ hx
  · intro y hy hyn x hx
    have hsplit := List.take_append_drop
      (st.completedIndices.length - min env.batchSize st.completedIndices.length)
      st.completedIndices
    have hsorted : List.Pairwise (· < ·) st.completedIndices := inv.sorted
    rw [← hsplit] at hsorted hy
    have hcross := (List.pairwise_append.mp hsorted).2.2
    rcases List.mem_append.mp hy with hy | hy
    · exact hcross y hy x hx
    · exact absurd hy hyn

/-- Witness for C6 at the state reached after the first batch of a
concrete all-success run. -/
theorem C6_reference_window_witness :
    (referenceWindow demoEnv.batchSize (ColorState.mk [0] 1 2).completedIndices).length =
      min demoEnv.batchSize (ColorState.mk [0] 1 2).completedIndices.length ∧
    (∀ x ∈ referenceWindow demoEnv.batchSize (ColorState.mk [0] 1 2).completedIndices,
      x ∈ (ColorState.mk [0] 1 2).completedIndices) ∧
    (∀ y ∈ (ColorState.mk [0] 1 2).completedIndices,
      y ∉ referenceWindow demoEnv.batchSize (ColorState.mk [0] 1 2).completedIndices →
      ∀ x ∈ referenceWindow demoEnv.batchSize (ColorState.mk [0] 1 2).completedIndices,
      y < x) :=
  C6_reference_window demoEnv ⟨[0], 1, 2⟩ idSched_ok demo_reach1

/-- C8: throughout every chained run, whatever the completion order of
each batch, the registry is strictly increasing in page number — hence
each index appears at most once — and every registered index has a
nonempty remote result. -/
theorem C8_registry :
    ∀ (env : ColorizeEnv) (st : ColorState), SchedOK env.sched → Reaches env st →
    st.completedIndices.Sorted (· < ·) ∧ st.completedIndices.Nodup ∧
    ∀ i ∈ st.completedIndices, ∃ r rs, env.api i = Except.ok (r :: rs) := by
  intro env st hs hr
  have inv := reaches_inv hs hr
  exact ⟨inv.sorted, List.Pairwise.imp Nat.ne_of_lt inv.sorted, inv.api_ok⟩

/-- Witness for C8 at the state reached after the first batch of a
concrete all-success run. -/
theorem C8_registry_witness :
    (ColorState.mk [0] 1 2).completedIndices.Sorted (· < ·) ∧
    (ColorState.mk [0] 1 2).completedIndices.Nodup ∧
    ∀ i ∈ (ColorState.mk [0] 1 2).completedIndices,
      ∃ r rs, demoEnv.api i = Except.ok (r :: rs) :=
  C8_registry demoEnv ⟨[0], 1, 2⟩ idSched_ok demo_reach1

/-- C10: at every reachable point of the chained orchestrator, every
index in the reference window is strictly smaller than every page index
of the batch dispatched there: references only ever point at pages
attempted in strictly earlier batches. -/
theorem C10_refs_precede :
    ∀ (env : ColorizeEnv) (st : ColorState), SchedOK env.sched → Reaches env st →
    ∀ r ∈ referenceWindow env.batchSize st.completedIndices,
    ∀ p ∈ batchIndicesOf env st, r < p := by
  intro env st hs hr r hrm p hpm
  have inv := reaches_inv hs hr
  have h1 : r ∈ st.completedIndices := List.drop_subset _ _ hrm
  have h2 := inv.lt_cursor r h1
  have h3 := (List.mem_range'_1.mp hpm).1
  omega

/-- Witness for C10 at the state reached after the first batch of a
concrete all-success run: reference index 0 precedes batch page 1. -/
theorem C10_refs_precede_witness :
    0 ∈ referenceWindow demoEnv.batchSize (ColorState.mk [0] 1 2).completedIndices ∧
    1 ∈ batchIndicesOf demoEnv ⟨[0], 1, 2⟩ ∧ (0 : Nat) < 1 :=
  ⟨by decide, by decide,
   C10_refs_precede demoEnv ⟨[0], 1, 2⟩ idSched_ok demo_reach1 0 (by decide) 1 (by decide)⟩

theorem processingJoin_cons (l : List Nat) (evs : List Event) :
    processingJoin (Event.processing l :: evs) = l ++ processingJoin evs := rfl

theorem processingJoin_append (a b : List Event) :
    processingJoin (a ++ b) = processingJoin a ++ processingJoin b := by
  unfold processingJoin
  rw [processingLists_append, List.flatten_append]

theorem colorizeRun_done_join (env : ColorizeEnv) :
    ∀ (fuel : Nat) (st : ColorState) (tr : List Event),
      colorizeRun env fuel st = RunResult.done tr →
      processingJoin tr = List.range' st.currentIndex (env.totalPages - st.currentIndex) := by
  intro fuel
  induction fuel with
  | zero => intro st tr h; cases h
  | succ fuel ih =>
    intro st tr h
    rw [show colorizeRun env (fuel + 1) st = runLoop (colorizeStep env) (fuel + 1) st from rfl]
      at h
    unfold runLoop at h
    cases hstep : colorizeStep env st with
    | done =>
      rw [hstep] at h
      injection h with h1
      subst h1
      have hdone := colorizeStep_done_iff.mp hstep
      rw [show env.totalPages - st.currentIndex = 0 from by omega]
      rfl
    | failed evs e => rw [hstep] at h; cases h
    | next evs st' =>
      rw [hstep] at h
      replace h : RunResult.withEvents evs (runLoop (colorizeStep env) fuel st') =
        RunResult.done tr := h
      cases hr : runLoop (colorizeStep env) fuel st' with
      | done tr' =>
        rw [hr] at h
        injection h with h1
        subst h1
        obtain ⟨hc, _, hevs, hst'⟩ := colorizeStep_next_inv hstep
        subst hevs
        have ihj := ih st' tr' hr
        have hcur : st'.currentIndex = st.currentIndex + batchCountOf env st := by
          rw [hst']
        rw [hcur] at ihj
        have hbc := batchCountOf_le env st
        rw [processingJoin_append, processingJoin_cons, ihj]
        show List.range' st.currentIndex (batchCountOf env st) ++
            processingJoin (batchOutcomeOf env st).events ++
            List.range' (st.currentIndex + batchCountOf env st)
              (env.totalPages - (st.currentIndex + batchCountOf env st)) =
          List.range' st.currentIndex (env.totalPages - st.currentIndex)
        rw [show processingJoin (batchOutcomeOf env st).events = [] from by
          unfold processingJoin
          rw [show processingLists (batchOutcomeOf env st).events = [] from
            runColorizeBatch_events env st.batchNumber
              (referenceWindow env.batchSize st.completedIndices)
              (env.sched st.batchNumber (batchIndicesOf env st))]
          rfl]
        rw [List.append_nil, List.range'_append_1]
        congr 1
        omega
      | failed tr' e => rw [hr] at h; cases h
      | outOfFuel tr' s => rw [hr] at h; cases h

theorem translateRun_done_join (env : TranslateEnv) :
    ∀ (fuel s : Nat) (tr : List Event),
      translateRun env fuel s = RunResult.done tr →
      processingJoin tr = List.range' s (env.totalPages - s) := by
  intro fuel
  induction fuel with
  | zero => intro s tr h; cases h
  | succ fuel ih =>
    intro s tr h
    rw [show translateRun env (fuel + 1) s = runLoop (translateStep env) (fuel + 1) s from rfl]
      at h
    unfold runLoop at h
    cases hstep : translateStep env s with
    | done =>
      rw [hstep] at h
      injection h with h1
      subst h1
      have hdone := translateStep_done_iff.mp hstep
      rw [show env.totalPages - s = 0 from by omega]
      rfl
    | failed evs e => rw [hstep] at h; cases h
    | next evs s' =>
      rw [hstep] at h
      replace h : RunResult.withEvents evs (runLoop (translateStep env) fuel s') =
        RunResult.done tr := h
      cases hr : runLoop (translateStep env) fuel s' with
      | done tr' =>
        rw [hr] at h
        injection h with h1
        subst h1
        obtain ⟨hc, _, hevs, hs'⟩ := translateStep_next_inv hstep
        subst hevs
        subst hs'
        have ihj := ih (s + env.batchSize) tr' hr
        rw [processingJoin_append, processingJoin_cons, ihj]
        rw [show processingJoin (runTranslateBatch env
            (env.sched s (tBatchIndices env s))).1 = [] from by
          unfold processingJoin
          rw [runTranslateBatch_events]
          rfl]
        rw [List.append_nil]
        show List.range' s (min (s + env.batchSize) env.totalPages - s) ++
            List.range' (s + env.batchSize)
              (env.totalPages - (s + env.batchSize)) =
          List.range' s (env.totalPages - s)
        rcases le_or_lt (s + env.batchSize) env.totalPages with hle | hlt
        · rw [show min (s + env.batchSize) env.totalPages - s = env.batchSize from by omega]
          rw [List.range'_append_1]
          congr 1
          omega
        · rw [show env.totalPages - (s + env.batchSize) = 0 from by omega]
          rw [List.range'_zero, List.append_nil]
          congr 1
          omega
      | failed tr' e => rw [hr] at h; cases h
      | outOfFuel tr' s2 => rw [hr] at h; cases h

/-- C7: in both modes, over any completed run (for every oracle and any
fuel bound under which the loop reaches `Done`), the page-index lists of
the successive `onPageProcessing` notifications concatenate, in dispatch
order, to exactly `0, 1, ..., totalPages - 1`: the batches are contiguous,
non-overlapping, strictly increasing ranges partitioning the input, with
no index skipped or repeated. -/
theorem C7_partition :
    (∀ (env : ColorizeEnv) (fuel : Nat),
      (colorizeRun env fuel ColorState.init).isDone = true →
      processingJoin (colorizeRun env fuel ColorState.init).trace =
        List.range env.totalPages) ∧
    (∀ (env : TranslateEnv) (fuel : Nat),
      (translateRun env fuel 0).isDone = true →
      processingJoin (translateRun env fuel 0).trace = List.range env.totalPages) := by
  constructor
  · intro env fuel hdone
    cases hr : colorizeRun env fuel ColorState.init with
    | done tr =>
      have := colorizeRun_done_join env fuel ColorState.init tr hr
      show processingJoin tr = List.range env.totalPages
      rw [this, List.range_eq_range']
      rfl
    | failed tr e => rw [hr] at hdone; cases hdone
    | outOfFuel tr s => rw [hr] at hdone; cases hdone
  · intro env fuel hdone
    cases hr : translateRun env fuel 0 with
    | done tr =>
      have := translateRun_done_join env fuel 0 tr hr
      show processingJoin tr = List.range env.totalPages
      rw [this, List.range_eq_range']
      rfl
    | failed tr e => rw [hr] at hdone; cases hdone
    | outOfFuel tr s => rw [hr] at hdone; cases hdone

/-- Witness for C7 on concrete completed runs in both modes. -/
theorem C7_partition_witness :
    processingJoin (colorizeRun (mkColorEnv 3 2 okApi) 9 ColorState.init).trace =
      List.range (mkColorEnv 3 2 okApi).totalPages ∧
    processingJoin (translateRun (mkTransEnv 10 3 okApi) 9 0).trace =
      List.range (mkTransEnv 10 3 okApi).totalPages :=
  ⟨C7_partition.1 (mkColorEnv 3 2 okApi) 9 rfl,
   C7_partition.2 (mkTransEnv 10 3 okApi) 9 rfl⟩

/-- No page of the run has a decode error or a raised remote fault (empty
remote results remain allowed). -/
def NoFaults (env : ColorizeEnv) : Prop :=
  ∀ i, i < env.totalPages →
    (∃ s, (env.files.getD i default).base64R = Except.ok s) ∧
    (∃ d, (env.files.getD i default).dimsR = Except.ok d) ∧
    (∃ l, env.api i = Except.ok l)

theorem colorizeRun_noFaults (env : ColorizeEnv) (hs : SchedOK env.sched)
    (hnf : NoFaults env) :
    ∀ (fuel : Nat) (st : ColorState), st.currentIndex ≤ env.totalPages →
      (colorizeRun env fuel st).isFailed = false := by
  intro fuel
  induction fuel with
  | zero => intro st h; rfl
  | succ fuel ih =>
    intro st hle
    show (runLoop (colorizeStep env) (fuel + 1) st).isFailed = false
    unfold runLoop
    cases hstep : colorizeStep env st with
    | done => rfl
    | failed evs e =>
      exfalso
      obtain ⟨hc, herr, _⟩ := colorizeStep_failed_inv hstep
      have hnone : (batchOutcomeOf env st).err = none := by
        refine runColorizeBatch_err_none ?_
        intro p hp
        have hpm : p ∈ batchIndicesOf env st := (hs _ _).subset hp
        have hpr := List.mem_range'_1.mp hpm
        have hbc := batchCountOf_le env st
        obtain ⟨h1, h2, h3⟩ := hnf p (by omega)
        exact colorizeTask_ok_of h1 h2 h3
      rw [hnone] at herr
      cases herr
    | next evs st' =>
      rw [withEvents_isFailed]
      refine ih st' ?_
      obtain ⟨hc, _, _, hst'⟩ := colorizeStep_next_inv hstep
      have hbc := batchCountOf_le env st
      rw [hst']
      show st.currentIndex + batchCountOf env st ≤ env.totalPages
      omega

/-- C1 amended: in chained (colorization) mode only an empty remote
result is absorbed as a non-fatal skip — the page is merely excluded from
the future reference pool and the run continues, never rejecting — while
a decode error or a raised remote fault is not caught and rejects the
run's outer promise. -/
theorem C1_amended :
    ∀ (env : ColorizeEnv), SchedOK env.sched → NoFaults env →
    (∀ fuel, (colorizeRun env fuel ColorState.init).isFailed = false) ∧
    (∀ st, Reaches env st → ∀ i, env.api i = Except.ok [] →
      i ∉ st.completedIndices) := by
  intro env hs hnf
  constructor
  · intro fuel
    exact colorizeRun_noFaults env hs hnf fuel ColorState.init (Nat.zero_le _)
  · intro st hr i hemp hmem
    obtain ⟨r, rs, hok⟩ := (reaches_inv hs hr).api_ok i hmem
    rw [hemp] at hok
    cases hok

/-- Two well-formed pages, width 3, empty result on page 1 only. -/
def skipEnv : ColorizeEnv :=
  mkColorEnv 2 3 (fun i => if i = 1 then Except.ok [] else Except.ok [okImage])

/-- Witness for the amended C1 on a concrete fault-free environment with
an empty result on page 1. -/
theorem C1_amended_witness :
    (∀ fuel, (colorizeRun skipEnv fuel ColorState.init).isFailed = false) ∧
    (∀ st, Reaches skipEnv st → ∀ i, skipEnv.api i = Except.ok [] →
      i ∉ st.completedIndices) :=
  C1_amended skipEnv idSched_ok (by
    intro i hi
    have h2 : i < 2 := hi
    interval_cases i
    · exact ⟨⟨"B64", rfl⟩, ⟨(2, 3), rfl⟩, ⟨[okImage], rfl⟩⟩
    · exact ⟨⟨"B64", rfl⟩, ⟨(2, 3), rfl⟩, ⟨[], rfl⟩⟩)

theorem runTranslateBatch_err_none {env : TranslateEnv} {order : List Nat}
    (h : ∀ p ∈ order, ∃ r, translateSinglePage (env.files.getD p default) env.config p
      env.api env.now = Except.ok r) :
    (runTranslateBatch env order).2 = none := by
  induction order with
  | nil => rfl
  | cons p rest ih =>
    unfold runTranslateBatch
    obtain ⟨r, hr⟩ := h p (List.mem_cons_self p rest)
    rw [hr]
    exact ih fun q hq => h q (List.mem_cons_of_mem p hq)

theorem runTranslateBatch_err_isSome {env : TranslateEnv} {order : List Nat} {p : Nat}
    {e : String} (hp : p ∈ order)
    (he : translateSinglePage (env.files.getD p default) env.config p env.api env.now =
      Except.error e) :
    (runTranslateBatch env order).2.isSome = true := by
  induction order with
  | nil => cases hp
  | cons q rest ih =>
    unfold runTranslateBatch
    cases ht : translateSinglePage (env.files.getD q default) env.config q env.api env.now with
    | error e2 => rfl
    | ok r =>
      rcases List.mem_cons.mp hp with hq | hq
      · subst hq
        rw [ht] at he
        cases he
      · exact ih hq

theorem getLast?_cons_of_getLast? {α : Type} (x : α) {l : List α} {y : α}
    (h : l.getLast? = some y) : (x :: l).getLast? = some y := by
  cases l with
  | nil => cases h
  | cons a l => rw [List.getLast?_cons_cons]; exact h

theorem translate_fail_aux (env : TranslateEnv) (i0 : Nat)
    (hs : SchedOK env.sched) (hbs : 1 ≤ env.batchSize) (hi0 : i0 < env.totalPages)
    (hfail : ∃ e, translateSinglePage (env.files.getD i0 default) env.config i0
      env.api env.now = Except.error e)
    (hpre : ∀ j, j < i0 → ∃ r, translateSinglePage (env.files.getD j default) env.config j
      env.api env.now = Except.ok r) :
    ∀ (fuel s : Nat), s ≤ i0 → env.totalPages ≤ s + fuel →
      (translateRun env fuel s).isFailed = true ∧
      ∃ L, (processingLists (translateRun env fuel s).trace).getLast? = some L ∧ i0 ∈ L := by
  intro fuel
  induction fuel with
  | zero => intro s h1 h2; omega
  | succ fuel ih =>
    intro s hsle hful
    have hslt : s < env.totalPages := by omega
    show (runLoop (translateStep env) (fuel + 1) s).isFailed = true ∧
      ∃ L, (processingLists (runLoop (translateStep env) (fuel + 1) s).trace).getLast? =
        some L ∧ i0 ∈ L
    unfold runLoop
    rcases le_or_lt (min (s + env.batchSize) env.totalPages) i0 with hout | hin
    · -- the failing page lies beyond this batch: every task here succeeds
      have hnone : (runTranslateBatch env (env.sched s (tBatchIndices env s))).2 = none := by
        refine runTranslateBatch_err_none ?_
        intro p hp
        have hpm : p ∈ tBatchIndices env s := (hs _ _).subset hp
        have hpr := List.mem_range'_1.mp hpm
        exact hpre p (by omega)
      cases hstep : translateStep env s with
      | done =>
        have := translateStep_done_iff.mp hstep
        omega
      | failed evs e =>
        obtain ⟨_, herr, _⟩ := translateStep_failed_inv hstep
        rw [hnone] at herr
        cases herr
      | next evs s' =>
        obtain ⟨_, _, hevs, hs'⟩ := translateStep_next_inv hstep
        have hnext : s + env.batchSize ≤ i0 := by omega
        obtain ⟨ihf, L, ihl, ihm⟩ := ih (s + env.batchSize) hnext (by omega)
        subst hs'
        constructor
        · rw [withEvents_isFailed]
          exact ihf
        · refine ⟨L, ?_, ihm⟩
          rw [withEvents_trace, processingLists_append, hevs]
          show (List.cons (tBatchIndices env s)
            (processingLists (runTranslateBatch env
              (env.sched s (tBatchIndices env s))).1) ++
            processingLists (runLoop (translateStep env) fuel (s + env.batchSize)).trace
            ).getLast? = some L
          rw [runTranslateBatch_events]
          show ((tBatchIndices env s) ::
            processingLists (runLoop (translateStep env) fuel (s + env.batchSize)).trace
            ).getLast? = some L
          exact getLast?_cons_of_getLast? _ ihl
    · -- the failing page is in this batch: the batch await rejects
      obtain ⟨e0, he0⟩ := hfail
      have hi0mem : i0 ∈ tBatchIndices env s := by
        apply List.mem_range'_1.mpr
        omega
      have hsome : (runTranslateBatch env (env.sched s (tBatchIndices env s))).2.isSome =
          true :=
        runTranslateBatch_err_isSome ((hs s (tBatchIndices env s)).mem_iff.mpr hi0mem) he0
      cases hstep : translateStep env s with
      | done =>
        have := translateStep_done_iff.mp hstep
        omega
      | failed evs e =>
        obtain ⟨_, herr, hevs⟩ := translateStep_failed_inv hstep
        constructor
        · rfl
        · refine ⟨tBatchIndices env s, ?_, hi0mem⟩
          show (processingLists evs).getLast? = some (tBatchIndices env s)
          rw [hevs]
          show (List.cons (tBatchIndices env s)
            (processingLists (runTranslateBatch env
              (env.sched s (tBatchIndices env s))).1)).getLast? =
            some (tBatchIndices env s)
          rw [runTranslateBatch_events]
          rfl
      | next evs s' =>
        obtain ⟨_, herr, _⟩ := translateStep_next_inv hstep
        rw [herr] at hsome
        cases hsome

/-- C4: in flat (translation) mode, when the first failing page is an
empty remote result, that page's task throws `No image result for page N`
uncaught; the run's outer promise rejects, and no batch beyond the
failing one is ever dispatched: the last `onPageProcessing` notification
of the whole run is the batch containing the failing page. -/
theorem C4_flat_rejects :
    ∀ (env : TranslateEnv) (i0 fuel : Nat) (s64 : String),
    SchedOK env.sched → 1 ≤ env.batchSize → i0 < env.totalPages →
    env.totalPages ≤ fuel →
    (env.files.getD i0 default).base64R = Except.ok s64 →
    env.api i0 = Except.ok [] →
    (∀ j, j < i0 → ∃ r, translateSinglePage (env.files.getD j default) env.config j
      env.api env.now = Except.ok r) →
    translateSinglePage (env.files.getD i0 default) env.config i0 env.api env.now =
      Except.error ("No image result for page " ++ toString (i0 + 1)) ∧
    (translateRun env fuel 0).isFailed = true ∧
    ∃ L, (processingLists (translateRun env fuel 0).trace).getLast? = some L ∧ i0 ∈ L := by
  intro env i0 fuel s64 hs hbs hi0 hfuel hb hapi hpre
  have hthrow : translateSinglePage (env.files.getD i0 default) env.config i0
      env.api env.now = Except.error ("No image result for page " ++ toString (i0 + 1)) := by
    unfold translateSinglePage fileToBase64
    rw [hb, hapi]
    rfl
  obtain ⟨h1, h2⟩ := translate_fail_aux env i0 hs hbs hi0 ⟨_, hthrow⟩ hpre fuel 0
    (Nat.zero_le _) (by omega)
  exact ⟨hthrow, h1, h2⟩

/-- Ten well-formed pages, width 3, empty result on page 4 only. -/
def failEnv : TranslateEnv :=
  mkTransEnv 10 3 (fun i => if i = 4 then Except.ok [] else Except.ok [okImage])

/-- Witness for C4 on a concrete run whose page 4 yields no image. -/
theorem C4_flat_rejects_witness :
    translateSinglePage (failEnv.files.getD 4 default) failEnv.config 4
      failEnv.api failEnv.now =
      Except.error ("No image result for page " ++ toString (4 + 1)) ∧
    (translateRun failEnv 10 0).isFailed = true ∧
    ∃ L, (processingLists (translateRun failEnv 10 0).trace).getLast? = some L ∧ 4 ∈ L :=
  C4_flat_rejects failEnv 4 10 "B64" idSched_ok (by decide) (by decide) (by decide) rfl rfl
    (by
      intro j hj
      have h4 : j < 4 := hj
      interval_cases j
      · exact ⟨⟨"IMG", "image/png", 0⟩, rfl⟩
      · exact ⟨⟨"IMG", "image/png", 1⟩, rfl⟩
      · exact ⟨⟨"IMG", "image/png", 2⟩, rfl⟩
      · exact ⟨⟨"IMG", "image/png", 3⟩, rfl⟩)

end Manana
